/-
Verification development for the DigitalOcean server-management code.

Shallow embedding of
  src/server_manager/web_app/digitalocean_server.ts
  src/server_manager/model/digitalocean_account.ts
with theorems settling the specification claims about them.

JavaScript strings are modelled as lists of characters (Str).  JavaScript
string truthiness (the empty string is falsy) is modelled explicitly wherever
the source relies on it.  The JavaScript toLowerCase is modelled by
Char.toLower, which agrees with it on the ASCII strings these functions
handle.
-/

import Mathlib

/-- Model of a JavaScript string: a list of characters. -/
abbrev Str := List Char

/-! ## infrastructure/hex_encoding (not under src/)

The hex codec lives in src/server_manager/infrastructure/hex_encoding.ts,
which is not part of the provided sources.  Modelled from the spec:
"encode/retrieve small key-value configuration ... through the provider's
tagging mechanism" and "decoding of hex-encoded tag values" — each character
is encoded as two lowercase hex digits of its code point, and decoding fails
(the source throws, modelled as Option.none) exactly when the input is not a
well-formed hex string: odd length or a non-hex-digit character. -/

/-- Modelled from the spec: the hex digit character for a value below 16. -/
def hexDigitChar (n : Nat) : Char :=
  if n < 10 then Char.ofNat (Char.toNat '0' + n) else Char.ofNat (Char.toNat 'a' + (n - 10))

/-- Modelled from the spec: hex-encode an ASCII string, two lowercase hex
digits per character (hex_encoding.ts, asciiToHex). -/
def asciiToHex (s : Str) : Str :=
  s.flatMap (fun c => [hexDigitChar (c.toNat / 16), hexDigitChar (c.toNat % 16)])

/-- Modelled from the spec: the numeric value of a hex digit character, none
when the character is not a hex digit. -/
def hexDigitVal (c : Char) : Option Nat :=
  if Char.toNat '0' ≤ c.toNat ∧ c.toNat ≤ Char.toNat '9' then some (c.toNat - Char.toNat '0')
  else if Char.toNat 'a' ≤ c.toNat ∧ c.toNat ≤ Char.toNat 'f' then
    some (c.toNat - Char.toNat 'a' + 10)
  else if Char.toNat 'A' ≤ c.toNat ∧ c.toNat ≤ Char.toNat 'F' then
    some (c.toNat - Char.toNat 'A' + 10)
  else none

/-- Modelled from the spec: hex-decode a string (hex_encoding.ts,
hexToString).  The source throws on malformed input; the throw is modelled as
none. -/
def hexToString : Str → Option Str
  | [] => some []
  | [_] => none
  | c1 :: c2 :: rest =>
    match hexDigitVal c1, hexDigitVal c2, hexToString rest with
    | some hi, some lo, some tail => some (Char.ofNat (hi * 16 + lo) :: tail)
    | _, _, _ => none

/-! ## web_app/digitalocean_server.ts -/

/-- Prefix used in key-value tags. -/
def KEY_VALUE_TAG : Str := "kv".data

/-- The tag key for the manager API certificate fingerprint. -/
def CERTIFICATE_FINGERPRINT_TAG : Str := "certsha256".data

/-- The tag key for the manager API URL. -/
def API_URL_TAG : Str := "apiurl".data

/-- The tag which appears if there is an error during installation. -/
def INSTALL_ERROR_TAG : Str := "install-error".data

/-- The deprecated tag key for the manager API port. -/
def DEPRECATED_API_PORT_TAG : Str := "apiport".data

/-- The deprecated tag key for the manager API url prefix. -/
def DEPRECATED_API_PREFIX_TAG : Str := "apiprefix".data

/-- Embedding of makeKeyValueTag: [KEY_VALUE_TAG, key, asciiToHex(value)].join(':'). -/
def makeKeyValueTag (key value : Str) : Str :=
  List.intercalate ":".data [KEY_VALUE_TAG, key, asciiToHex value]

/-- Embedding of makeKeyValueTagPrefix: makeKeyValueTag(key, ''). -/
def makeKeyValueTagPrefix (key : Str) : Str :=
  makeKeyValueTag key []

/-- Embedding of startsWithCaseInsensitive:
text.slice(0, prefix.length).toLowerCase() === prefix.toLowerCase(). -/
def startsWithCaseInsensitive (text pfx : Str) : Bool :=
  (text.take pfx.length).map Char.toLower == pfx.map Char.toLower

/-- Result of getTagValue, which in the source returns the decoded string, or
null (hex decoding threw), or undefined (the for loop found no matching tag
and the function falls off its end). -/
inductive TagValue
  | val (s : Str)
  | null
  | undefined
deriving DecidableEq

/-- JavaScript truthiness of a getTagValue result: a string is truthy iff it
is non-empty; null and undefined are falsy. -/
def truthy : TagValue → Bool
  | TagValue.val s => !s.isEmpty
  | TagValue.null => false
  | TagValue.undefined => false

/-- Embedding of DigitalOceanServer.getTagValue over the droplet tag list:
scan the tags for the first one whose key-value prefix matches
case-insensitively and hex-decode its payload. -/
def getTagValue (key : Str) : List Str → TagValue
  | [] => TagValue.undefined
  | tag :: rest =>
    if startsWithCaseInsensitive tag ( makeKeyValueTagPrefix key) then
      match hexToString (tag.drop ( makeKeyValueTagPrefix key).length) with
      | some s => TagValue.val s
      | none => TagValue.null
    else getTagValue key rest

/-- One entry of DropletInfo.networks.v4; only the fields read by this code. -/
structure NetworkV4 where
  type : Str
  ip_address : Str
deriving DecidableEq

/-- The parts of DropletInfo read by the functions under verification: the
tag list and the v4 networks. -/
structure DropletInfo where
  tags : List Str
  networksV4 : List NetworkV4
deriving DecidableEq

/-- Embedding of ipv4Address: the ip_address of the first network in
networks.v4 whose type is 'public', undefined (none) otherwise. -/
def ipv4Address (d : DropletInfo) : Option Str :=
  (d.networksV4.find? (fun n => n.type == "public".data)).map NetworkV4.ip_address

/-- Modelled from the platform: the browser builtin btoa (base64 with
padding).  btoa throws only on code points above 255, which hexToString never
produces, so on every input reachable here it is total. -/
def base64Char (n : Nat) : Char :=
  if n < 26 then Char.ofNat (Char.toNat 'A' + n)
  else if n < 52 then Char.ofNat (Char.toNat 'a' + (n - 26))
  else if n < 62 then Char.ofNat (Char.toNat '0' + (n - 52))
  else if n = 62 then '+'
  else '/'

/-- Modelled from the platform: base64-encode a byte string (btoa). -/
def btoa : Str → Str
  | [] => []
  | [a] =>
    [base64Char (a.toNat / 4), base64Char (a.toNat % 4 * 16), '=', '=']
  | [a, b] =>
    let x := a.toNat * 256 + b.toNat
    [base64Char (x / 1024), base64Char (x / 16 % 64), base64Char (x % 16 * 4), '=']
  | a :: b :: c :: rest =>
    let x := a.toNat * 65536 + b.toNat * 256 + c.toNat
    base64Char (x / 262144) :: base64Char (x / 4096 % 64) :: base64Char (x / 64 % 64) ::
      base64Char (x % 64) :: btoa rest

/-- Embedding of the deprecated branch of getManagementApiAddress: require a
truthy apiport tag and a truthy ipv4 address, build
https://ip:port/ and append apiprefix/ when that tag is truthy. -/
def deprecatedApiAddress (d : DropletInfo) : Option Str :=
  match getTagValue DEPRECATED_API_PORT_TAG d.tags with
  | TagValue.val portNumber =>
    if portNumber.isEmpty then none
    else
      match ipv4Address d with
      | none => none
      | some ip =>
        if ip.isEmpty then none
        else
          let base := "https://".data ++ ip ++ ":".data ++ portNumber ++ "/".data
          match getTagValue DEPRECATED_API_PREFIX_TAG d.tags with
          | TagValue.val p => if p.isEmpty then some base else some (base ++ p ++ "/".data)
          | _ => some base
  | _ => none

/-- Embedding of getManagementApiAddress: the apiurl tag when truthy, else
the deprecated apiport/apiprefix construction; a trailing slash is appended
when missing.  A throw in the source is modelled as none. -/
def getManagementApiAddress (d : DropletInfo) : Option Str :=
  let addr? : Option Str :=
    match getTagValue API_URL_TAG d.tags with
    | TagValue.val s => if s.isEmpty then deprecatedApiAddress d else some s
    | _ => deprecatedApiAddress d
  match addr? with
  | none => none
  | some a => some (if a.getLast? == some '/' then a else a ++ "/".data)

/-- Embedding of getCertificateFingerprint: the base64 encoding of the
certsha256 tag value when that value is truthy; a throw is modelled as
none. -/
def getCertificateFingerprint (d : DropletInfo) : Option Str :=
  match getTagValue CERTIFICATE_FINGERPRINT_TAG d.tags with
  | TagValue.val fingerprint =>
    if fingerprint.isEmpty then none else some (btoa fingerprint)
  | _ => none

/-- Embedding of setApiUrlAndCertificate: true when both
getCertificateFingerprint and getManagementApiAddress succeed (the source
catches their exceptions and returns false).  The side effects
trustCertificate and setManagementApiUrl do not touch installState and are
not modelled. -/
def setApiUrlAndCertificate (d : DropletInfo) : Bool :=
  (getCertificateFingerprint d).isSome && (getManagementApiAddress d).isSome

/-- Possible install states for DigitalOceanServer. -/
inductive InstallState
  | UNKNOWN
  | SUCCESS
  | ERROR
  | DELETED
deriving DecidableEq

/-- The five-minute installation timeout of refreshInstallState, in
milliseconds. -/
def TIMEOUT_MS : Nat := 5 * 60 * 1000

/-- Embedding of the updateInstallState closure inside refreshInstallState.
state is this.installState, d the current droplet info, and elapsedMs the
value of Date.now() - startTimestamp at this poll step. -/
def updateInstallState (state : InstallState) (d : DropletInfo) (elapsedMs : Nat) : InstallState :=
  if state ≠ InstallState.UNKNOWN then state
  else if truthy (getTagValue INSTALL_ERROR_TAG d.tags) then InstallState.ERROR
  else if TIMEOUT_MS ≤ elapsedMs then InstallState.ERROR
  else if setApiUrlAndCertificate d then InstallState.SUCCESS
  else state

/-- Embedding of the write waitOnInstall performs on installState before
polling: with resetTimeout it resets the state to UNKNOWN, otherwise it
leaves the state alone. -/
def waitOnInstallResetState (resetTimeout : Bool) (state : InstallState) : InstallState :=
  if resetTimeout then InstallState.UNKNOWN else state

/-- Embedding of the write the onDelete callback performs on installState. -/
def onDelete (_state : InstallState) : InstallState :=
  InstallState.DELETED

/-- How one firing of the waitOnInstall polling callback settles the promise:
it can leave it pending, fulfill it, or reject it with one of the three error
classes of infrastructure/errors. -/
inductive SettleOutcome
  | pending
  | fulfilled
  | rejectUnreachableServerError
  | rejectServerInstallFailedError
  | rejectDeletedServerError
deriving DecidableEq

/-- Embedding of one firing of the setInterval callback in waitOnInstall:
UNKNOWN keeps the promise pending; SUCCESS fulfills when this.isHealthy()
resolves true and rejects with UnreachableServerError otherwise; ERROR
rejects with ServerInstallFailedError; DELETED rejects with
DeletedServerError. -/
def waitOnInstallPollStep (installState : InstallState) (isHealthy : Bool) : SettleOutcome :=
  match installState with
  | InstallState.UNKNOWN => SettleOutcome.pending
  | InstallState.SUCCESS =>
    if isHealthy then SettleOutcome.fulfilled else SettleOutcome.rejectUnreachableServerError
  | InstallState.ERROR => SettleOutcome.rejectServerInstallFailedError
  | InstallState.DELETED => SettleOutcome.rejectDeletedServerError

/-! ## model/digitalocean_account.ts -/

/-- The droplet size required by createServer and filtered for by
listLocations. -/
def MACHINE_SIZE : Str := "s-1vcpu-1gb".data

/-- The fields of a RegionInfo read by listLocations. -/
structure RegionInfo where
  slug : Str
  available : Bool
  sizes : List Str
deriving DecidableEq

/-- Embedding of the DigitalOceanLocation interface. -/
structure DigitalOceanLocation where
  regionId : Str
  dataCenterIds : List Str
deriving DecidableEq

/-- Embedding of GetCityId: slug.substr(0, 3).toLowerCase(). -/
def GetCityId (slug : Str) : Str :=
  (slug.take 3).map Char.toLower

/-- Embedding of the body of the forEach in listLocations for one eligible
region: find the first location with this regionId and push the slug onto its
dataCenterIds, or append a fresh location at the end. -/
def insertRegion (regionId slug : Str) : List DigitalOceanLocation → List DigitalOceanLocation
  | [] => [{ regionId := regionId, dataCenterIds := [slug] }]
  | loc :: locs =>
    if loc.regionId == regionId then
      { regionId := loc.regionId, dataCenterIds := loc.dataCenterIds ++ [slug] } :: locs
    else loc :: insertRegion regionId slug locs

/-- One iteration of the forEach in listLocations: act only on regions that
are available and offer MACHINE_SIZE. -/
def listLocationsStep (locations : List DigitalOceanLocation) (region : RegionInfo) :
    List DigitalOceanLocation :=
  if region.available && region.sizes.contains MACHINE_SIZE then
    insertRegion (GetCityId region.slug) region.slug locations
  else locations

/-- Embedding of listLocations over the region infos the API returned: keep
the regions that are available and offer MACHINE_SIZE, grouping their slugs
into locations keyed by GetCityId. -/
def listLocations (regionInfos : List RegionInfo) : List DigitalOceanLocation :=
  regionInfos.foldl listLocationsStep []

/-- Model of the error passed to processError.  HttpError and NetworkError
are classes of cloud/digitalocean_api (not under src/); processError only
reads the class of the error and an HttpError's status code, which is all the
model keeps. -/
inductive ApiError
  | http (statusCode : Nat) (message : Str)
  | network
  | other (message : Str)
deriving DecidableEq

/-- Embedding of processError, reduced to its observable decision: true when
the account-connectivity-issue domain event is emitted (HttpError with status
401, or NetworkError), false when the error is only logged. -/
def processError : ApiError → Bool
  | ApiError.http statusCode _ => statusCode == 401
  | ApiError.network => true
  | ApiError.other _ => false

/-- JavaScript whitespace trim on the character-list model of a string
(String.prototype.trim, restricted to the ASCII whitespace these tokens can
contain). -/
def jsTrim (s : Str) : Str :=
  ((s.dropWhile Char.isWhitespace).reverse.dropWhile Char.isWhitespace).reverse

/-- One character of the token pattern (letters, digits, underscore, slash,
hyphen). -/
def isTokenChar (c : Char) : Bool :=
  (Char.toNat 'A' ≤ c.toNat && c.toNat ≤ Char.toNat 'Z') ||
  (Char.toNat 'a' ≤ c.toNat && c.toNat ≤ Char.toNat 'z') ||
  (Char.toNat '0' ≤ c.toNat && c.toNat ≤ Char.toNat '9') ||
  c == '_' || c == '/' || c == '-'

/-- The test of the full-string token pattern of sanitizeDigitalOceanToken:
non-empty and every character in the class. -/
def testTokenPattern (s : Str) : Bool :=
  !s.isEmpty && s.all isTokenChar

/-- Embedding of sanitizeDigitalOceanToken: trim the input and throw
(modelled as Except.error) unless the trimmed token matches the pattern. -/
def sanitizeDigitalOceanToken (input : Str) : Except Str Str :=
  let sanitizedInput := jsTrim input
  if testTokenPattern sanitizedInput then Except.ok sanitizedInput
  else Except.error "Invalid DigitalOcean Token".data

/-- Modelled from the spec: do_install_script.SCRIPT, the install script
body, is not under src/.  No claim depends on its content, only on the
returned script ending with it; it is modelled as a fixed string. -/
def SCRIPT : Str := "# do_install_script body\n".data

/-- Decimal rendering of a JavaScript number holding a natural number, for
the WATCHTOWER_REFRESH_SECONDS export line. -/
def natToStr (n : Nat) : Str := (Nat.repr n).data

/-- Embedding of getInstallScript.  Optional arguments are Options; the
source tests each of them for JavaScript truthiness, so an argument that is
present but falsy (empty string, zero) produces no export line. -/
def getInstallScript (accessToken name : Str) (image : Option Str)
    (watchtowerRefreshSeconds : Option Nat) (metricsUrl sentryApiUrl : Option Str) :
    Except Str Str :=
  match sanitizeDigitalOceanToken accessToken with
  | Except.error e => Except.error e
  | Except.ok sanitizedAccessToken =>
    Except.ok (
      "#!/bin/bash -eu\n".data ++
      ("export DO_ACCESS_TOKEN=".data ++ sanitizedAccessToken ++ "\n".data) ++
      (match image with
       | some i => if i.isEmpty then [] else "export SB_IMAGE=".data ++ i ++ "\n".data
       | none => []) ++
      (match watchtowerRefreshSeconds with
       | some w =>
         if w == 0 then []
         else "export WATCHTOWER_REFRESH_SECONDS=".data ++ natToStr w ++ "\n".data
       | none => []) ++
      (match sentryApiUrl with
       | some u =>
         if u.isEmpty then [] else "export SENTRY_API_URL=\"".data ++ u ++ "\"\n".data
       | none => []) ++
      (match metricsUrl with
       | some m => if m.isEmpty then [] else "export SB_METRICS_URL=".data ++ m ++ "\n".data
       | none => []) ++
      ("export SB_DEFAULT_SERVER_NAME=\"".data ++ name ++ "\"\n".data) ++
      SCRIPT)

/-- Substring test used to state properties of the generated install script:
some suffix of hay starts with needle. -/
def strContains (hay needle : Str) : Bool :=
  (hay.tails).any (fun t => needle.isPrefixOf t)

/-! ## Helper lemmas -/

/-- Decomposition of a key-value tag into its prefix and hex payload. -/
theorem makeKeyValueTag_decomp (key value : Str) :
    makeKeyValueTag key value = makeKeyValueTagPrefix key ++ asciiToHex value := by
  simp [makeKeyValueTag, makeKeyValueTagPrefix, List.intercalate, asciiToHex]

/-- Hex digits decode back to their value. -/
theorem hexDigitVal_hexDigitChar : ∀ n : Nat, n < 16 → hexDigitVal (hexDigitChar n) = some n := by
  decide

/-- Round trip of the modelled hex codec on byte strings. -/
theorem hexToString_asciiToHex (value : Str) (h : ∀ c ∈ value, c.toNat < 256) :
    hexToString (asciiToHex value) = some value := by
  induction value with
  | nil => rfl
  | cons c cs ih =>
    have hc : c.toNat < 256 := h c (List.mem_cons_self c cs)
    have h1 : c.toNat / 16 < 16 := Nat.div_lt_of_lt_mul (by omega)
    have h2 : c.toNat % 16 < 16 := Nat.mod_lt _ (by omega)
    have hrest := ih (fun x hx => h x (List.mem_cons_of_mem _ hx))
    rw [show asciiToHex (c :: cs)
        = hexDigitChar (c.toNat / 16) :: hexDigitChar (c.toNat % 16) :: asciiToHex cs from rfl]
    simp only [hexToString]
    rw [hexDigitVal_hexDigitChar _ h1, hexDigitVal_hexDigitChar _ h2, hrest]
    have hdm : c.toNat / 16 * 16 + c.toNat % 16 = c.toNat := Nat.div_add_mod' c.toNat 16
    simp [hdm, Char.ofNat_toNat]

/-- A string starts (case-insensitively) with its own prefix. -/
theorem startsWithCaseInsensitive_append (pfx rest : Str) :
    startsWithCaseInsensitive (pfx ++ rest) pfx = true := by
  simp [startsWithCaseInsensitive, List.take_left]

/-- Characterization of getTagValue through List.find?: it decides on the
first tag whose key-value prefix matches case-insensitively. -/
theorem getTagValue_find (key : Str) (tags : List Str) :
    getTagValue key tags =
      match tags.find? (fun t => startsWithCaseInsensitive t ( makeKeyValueTagPrefix key)) with
      | some t =>
        match hexToString (t.drop ( makeKeyValueTagPrefix key).length) with
        | some s => TagValue.val s
        | none => TagValue.null
      | none => TagValue.undefined := by
  induction tags with
  | nil => rfl
  | cons tag rest ih =>
    by_cases h : startsWithCaseInsensitive tag ( makeKeyValueTagPrefix key) = true
    · simp [getTagValue, List.find?_cons_of_pos, h]
    · have hb : startsWithCaseInsensitive tag ( makeKeyValueTagPrefix key) = false := by
        simpa using h
      simp [getTagValue, List.find?_cons_of_neg, hb, ih]

/-- When no tag matches the key prefix, getTagValue returns undefined. -/
theorem getTagValue_eq_undefined (key : Str) (tags : List Str)
    (h : ∀ t ∈ tags, startsWithCaseInsensitive t ( makeKeyValueTagPrefix key) = false) :
    getTagValue key tags = TagValue.undefined := by
  rw [getTagValue_find]
  have hfind : tags.find? (fun t => startsWithCaseInsensitive t ( makeKeyValueTagPrefix key))
      = none := by
    rw [List.find?_eq_none]
    intro t ht
    simp [h t ht]
  rw [hfind]

/-! ## Claim theorems -/

/-- The four admissible values of the install-state field. -/
def validInstallState (s : InstallState) : Prop :=
  s = InstallState.UNKNOWN ∨ s = InstallState.SUCCESS ∨ s = InstallState.ERROR ∨
    s = InstallState.DELETED

/-- C1: the install-status poller is a four-state state machine — installState
is always one of UNKNOWN, SUCCESS, ERROR, DELETED, and each operation that
writes it (updateInstallState inside refreshInstallState, the reset in
waitOnInstall, and onDelete) produces a value inside this set. -/
theorem installState_four_valued :
    (∀ s : InstallState, validInstallState s)
    ∧ (∀ (s : InstallState) (d : DropletInfo) (elapsedMs : Nat),
        validInstallState (updateInstallState s d elapsedMs))
    ∧ (∀ (resetTimeout : Bool) (s : InstallState),
        validInstallState (waitOnInstallResetState resetTimeout s))
    ∧ (∀ s : InstallState, validInstallState (onDelete s)) := by
  have h : ∀ s : InstallState, validInstallState s := by
    intro s
    cases s <;> simp [validInstallState]
  exact ⟨h, fun s d e => h _, fun b s => h _, fun s => h _⟩

/-- C2: one firing of the waitOnInstall poll callback settles the promise
according to the install state — fulfilled exactly on SUCCESS with a healthy
server, UnreachableServerError exactly on SUCCESS with an unhealthy server,
ServerInstallFailedError exactly on ERROR, DeletedServerError exactly on
DELETED, and it never settles while the state is UNKNOWN. -/
theorem waitOnInstall_settles_by_state (s : InstallState) (isHealthy : Bool) :
    (waitOnInstallPollStep s isHealthy = SettleOutcome.fulfilled ↔
        s = InstallState.SUCCESS ∧ isHealthy = true)
    ∧ (waitOnInstallPollStep s isHealthy = SettleOutcome.rejectUnreachableServerError ↔
        s = InstallState.SUCCESS ∧ isHealthy = false)
    ∧ (waitOnInstallPollStep s isHealthy = SettleOutcome.rejectServerInstallFailedError ↔
        s = InstallState.ERROR)
    ∧ (waitOnInstallPollStep s isHealthy = SettleOutcome.rejectDeletedServerError ↔
        s = InstallState.DELETED)
    ∧ (s = InstallState.UNKNOWN → waitOnInstallPollStep s isHealthy = SettleOutcome.pending) := by
  cases s <;> cases isHealthy <;> simp [waitOnInstallPollStep]

/-- Witness for C2 at the concrete state UNKNOWN. -/
theorem waitOnInstall_settles_by_state_witness :
    waitOnInstallPollStep InstallState.UNKNOWN true = SettleOutcome.pending :=
  (waitOnInstall_settles_by_state InstallState.UNKNOWN true).2.2.2.2 rfl

/-- C3: at any poll step where the state is UNKNOWN, no droplet tag matches
the install-error key prefix, and at least TIMEOUT_MS (five minutes) have
elapsed since refreshInstallState started, updateInstallState sets the state
to ERROR. -/
theorem timeout_forces_error_state (d : DropletInfo) (elapsedMs : Nat)
    (hnotag : ∀ t ∈ d.tags,
        startsWithCaseInsensitive t ( makeKeyValueTagPrefix INSTALL_ERROR_TAG) = false)
    (htime : TIMEOUT_MS ≤ elapsedMs) :
    updateInstallState InstallState.UNKNOWN d elapsedMs = InstallState.ERROR := by
  have h := getTagValue_eq_undefined INSTALL_ERROR_TAG d.tags hnotag
  simp [updateInstallState, h, truthy, htime]

/-- Witness for C3: a droplet carrying only an unrelated tag, at exactly the
five-minute mark. -/
theorem timeout_forces_error_state_witness :
    updateInstallState InstallState.UNKNOWN (DropletInfo.mk ["shadowbox".data] []) 300000
      = InstallState.ERROR :=
  timeout_forces_error_state (DropletInfo.mk ["shadowbox".data] []) 300000 (by decide) (by decide)

/-- C4: race avoidance — once the install state is SUCCESS, ERROR or DELETED,
updateInstallState returns it unchanged for every droplet tag content and
every elapsed time. -/
theorem known_install_state_never_changes (s : InstallState) (d : DropletInfo) (elapsedMs : Nat)
    (h : s = InstallState.SUCCESS ∨ s = InstallState.ERROR ∨ s = InstallState.DELETED) :
    updateInstallState s d elapsedMs = s := by
  rcases h with h | h | h <;> subst h <;> simp [updateInstallState]

/-- Witness for C4 at the concrete state SUCCESS. -/
theorem known_install_state_never_changes_witness :
    updateInstallState InstallState.SUCCESS (DropletInfo.mk [] []) 0 = InstallState.SUCCESS :=
  known_install_state_never_changes InstallState.SUCCESS (DropletInfo.mk [] []) 0 (Or.inl rfl)

/-- C6: priority of the checks in updateInstallState when the state is
UNKNOWN — a truthy install-error tag forces ERROR no matter what other tags
are present or how much time has elapsed, and without it an elapsed time of
at least TIMEOUT_MS forces ERROR no matter what other tags are present. -/
theorem install_error_and_timeout_precedence (d : DropletInfo) (elapsedMs : Nat) :
    (truthy (getTagValue INSTALL_ERROR_TAG d.tags) = true →
        updateInstallState InstallState.UNKNOWN d elapsedMs = InstallState.ERROR)
    ∧ (truthy (getTagValue INSTALL_ERROR_TAG d.tags) = false → TIMEOUT_MS ≤ elapsedMs →
        updateInstallState InstallState.UNKNOWN d elapsedMs = InstallState.ERROR) := by
  constructor
  · intro h
    simp [updateInstallState, h]
  · intro h htime
    simp [updateInstallState, h, htime]

/-- Witness for C6: two droplets that both carry valid apiurl and certsha256
tags (setApiUrlAndCertificate succeeds on them); the first also carries an
install-error tag and is forced to ERROR at elapsed time 0, the second is
forced to ERROR by the timeout. -/
theorem install_error_and_timeout_precedence_witness :
    setApiUrlAndCertificate (DropletInfo.mk
        [makeKeyValueTag "apiurl".data "https://x/".data,
         makeKeyValueTag "certsha256".data "f".data,
         makeKeyValueTag "install-error".data "boom".data] []) = true
    ∧ updateInstallState InstallState.UNKNOWN (DropletInfo.mk
        [makeKeyValueTag "apiurl".data "https://x/".data,
         makeKeyValueTag "certsha256".data "f".data,
         makeKeyValueTag "install-error".data "boom".data] []) 0 = InstallState.ERROR
    ∧ setApiUrlAndCertificate (DropletInfo.mk
        [makeKeyValueTag "apiurl".data "https://x/".data,
         makeKeyValueTag "certsha256".data "f".data] []) = true
    ∧ updateInstallState InstallState.UNKNOWN (DropletInfo.mk
        [makeKeyValueTag "apiurl".data "https://x/".data,
         makeKeyValueTag "certsha256".data "f".data] []) 300000 = InstallState.ERROR := by
  refine ⟨by decide, ?_, by decide, ?_⟩
  · exact (install_error_and_timeout_precedence (DropletInfo.mk
      [makeKeyValueTag "apiurl".data "https://x/".data,
       makeKeyValueTag "certsha256".data "f".data,
       makeKeyValueTag "install-error".data "boom".data] []) 0).1 (by decide)
  · exact (install_error_and_timeout_precedence (DropletInfo.mk
      [makeKeyValueTag "apiurl".data "https://x/".data,
       makeKeyValueTag "certsha256".data "f".data] []) 300000).2 (by decide) (by decide)

/-- C7: processError emits the account-connectivity-issue domain event if and
only if the error is an HttpError with status code 401 or a NetworkError; any
other error is only logged. -/
theorem processError_emits_connectivity_iff (e : ApiError) :
    processError e = true ↔ ((∃ msg, e = ApiError.http 401 msg) ∨ e = ApiError.network) := by
  cases e <;> simp [processError]

/-- C10: getTagValue is total at the tag interface — for every key and every
tag list it returns the hex-decoded payload of the first tag whose kv:key:
prefix matches case-insensitively, null when that payload is not valid hex
(the hexToString throw is caught), and undefined when no tag matches; no
input makes it throw. -/
theorem getTagValue_never_throws (key : Str) (tags : List Str) :
    (tags.find? (fun t => startsWithCaseInsensitive t ( makeKeyValueTagPrefix key)) = none →
        getTagValue key tags = TagValue.undefined)
    ∧ (∀ tag, tags.find? (fun t => startsWithCaseInsensitive t ( makeKeyValueTagPrefix key))
          = some tag →
        (∀ s, hexToString (tag.drop ( makeKeyValueTagPrefix key).length) = some s →
            getTagValue key tags = TagValue.val s)
        ∧ (hexToString (tag.drop ( makeKeyValueTagPrefix key).length) = none →
            getTagValue key tags = TagValue.null)) := by
  constructor
  · intro h
    rw [getTagValue_find, h]
  · intro tag h
    constructor
    · intro s hs
      rw [getTagValue_find, h]
      show (match hexToString (tag.drop ( makeKeyValueTagPrefix key).length) with
            | some s2 => TagValue.val s2
            | none => TagValue.null) = TagValue.val s
      rw [hs]
    · intro hs
      rw [getTagValue_find, h]
      show (match hexToString (tag.drop ( makeKeyValueTagPrefix key).length) with
            | some s2 => TagValue.val s2
            | none => TagValue.null) = TagValue.null
      rw [hs]

/-- Witness for C10: no tag matches in an empty tag list, so getTagValue
returns undefined. -/
theorem getTagValue_never_throws_witness :
    getTagValue "apiurl".data [] = TagValue.undefined :=
  (getTagValue_never_throws "apiurl".data []).1 rfl

/-- C5 counterexample: containing makeKeyValueTag(key, value) in the tag list
does not by itself make getTagValue return value — an earlier tag for the
same key wins. -/
theorem getTagValue_contains_insufficient :
    (makeKeyValueTag "k".data "b".data ∈
        [makeKeyValueTag "k".data "a".data, makeKeyValueTag "k".data "b".data])
    ∧ getTagValue "k".data
        [makeKeyValueTag "k".data "a".data, makeKeyValueTag "k".data "b".data]
        = TagValue.val "a".data
    ∧ TagValue.val "a".data ≠ TagValue.val "b".data := by
  refine ⟨by decide, by decide, by decide⟩

/-- C5 (amended): the key-value round trip holds through the first matching
tag — whenever the first tag whose kv:key: prefix matches case-insensitively
is makeKeyValueTag(key, value) for an ASCII value, getTagValue(key) returns
value. -/
theorem getTagValue_first_tag_roundtrip (key value : Str) (tags : List Str)
    (hascii : ∀ c ∈ value, c.toNat < 128)
    (hfind : tags.find? (fun t => startsWithCaseInsensitive t ( makeKeyValueTagPrefix key))
        = some (makeKeyValueTag key value)) :
    getTagValue key tags = TagValue.val value := by
  rw [getTagValue_find, hfind, makeKeyValueTag_decomp]
  show (match hexToString ((( makeKeyValueTagPrefix key) ++ asciiToHex value).drop
          ( makeKeyValueTagPrefix key).length) with
        | some s2 => TagValue.val s2
        | none => TagValue.null) = TagValue.val value
  rw [List.drop_left]
  rw [hexToString_asciiToHex value (fun c hc => lt_trans (hascii c hc) (by norm_num))]

/-- Witness for C5: a singleton tag list built by makeKeyValueTag decodes
back to its value. -/
theorem getTagValue_first_tag_roundtrip_witness :
    getTagValue "k".data [makeKeyValueTag "k".data "a".data] = TagValue.val "a".data :=
  getTagValue_first_tag_roundtrip "k".data "a".data [makeKeyValueTag "k".data "a".data]
    (by decide) (by decide)

/-- Specification-side description of the script getInstallScript builds for
a sanitized token: the shebang line, the mandatory DO_ACCESS_TOKEN export,
one optional export line per truthy optional argument, the
SB_DEFAULT_SERVER_NAME export, and the install script body. -/
def installScriptBody (sanitizedAccessToken name : Str) (image : Option Str)
    (watchtowerRefreshSeconds : Option Nat) (metricsUrl sentryApiUrl : Option Str) : Str :=
  "#!/bin/bash -eu\n".data ++
  (("export DO_ACCESS_TOKEN=".data ++ sanitizedAccessToken ++ "\n".data) ++
  ((match image with
    | some i => if i.isEmpty then [] else "export SB_IMAGE=".data ++ i ++ "\n".data
    | none => []) ++
  ((match watchtowerRefreshSeconds with
    | some w =>
      if w == 0 then [] else "export WATCHTOWER_REFRESH_SECONDS=".data ++ natToStr w ++ "\n".data
    | none => []) ++
  ((match sentryApiUrl with
    | some u => if u.isEmpty then [] else "export SENTRY_API_URL=\"".data ++ u ++ "\"\n".data
    | none => []) ++
  ((match metricsUrl with
    | some m => if m.isEmpty then [] else "export SB_METRICS_URL=".data ++ m ++ "\n".data
    | none => []) ++
  (("export SB_DEFAULT_SERVER_NAME=\"".data ++ name ++ "\"\n".data) ++ SCRIPT))))))

/-- Suffixes lift over an append on the left. -/
theorem suffix_append_left {l r : Str} (x : Str) (h : l <:+ r) : l <:+ x ++ r :=
  h.trans (List.suffix_append x r)

/-- C8 counterexample: an optional argument that is set but falsy produces no
export line — with image set to the empty string the generated script is the
one generated without an image, and it contains no SB_IMAGE export. -/
theorem getInstallScript_set_falsy_image_omitted :
    (some ([] : Str)).isSome = true
    ∧ getInstallScript "abc".data "n".data (some []) none none none
        = getInstallScript "abc".data "n".data none none none none
    ∧ (match getInstallScript "abc".data "n".data (some []) none none none with
       | Except.ok out => strContains out "export SB_IMAGE=".data
       | Except.error _ => true) = false := by
  refine ⟨rfl, rfl, by decide⟩

/-- C8 (amended): getInstallScript throws the Invalid DigitalOcean Token
error exactly when the trimmed access token fails the token pattern;
otherwise it returns the script that begins with the bash shebang, exports
the trimmed token, contains each optional export line exactly when the
corresponding argument is set to a truthy value (non-empty string, non-zero
number), exports the server name, and ends with the install script body. -/
theorem getInstallScript_characterization (accessToken name : Str) (image : Option Str)
    (watchtowerRefreshSeconds : Option Nat) (metricsUrl sentryApiUrl : Option Str) :
    (∀ e, getInstallScript accessToken name image watchtowerRefreshSeconds metricsUrl sentryApiUrl
          = Except.error e ↔
        (testTokenPattern (jsTrim accessToken) = false ∧ e = "Invalid DigitalOcean Token".data))
    ∧ (testTokenPattern (jsTrim accessToken) = true →
        getInstallScript accessToken name image watchtowerRefreshSeconds metricsUrl sentryApiUrl
            = Except.ok (installScriptBody (jsTrim accessToken) name image
                watchtowerRefreshSeconds metricsUrl sentryApiUrl)
        ∧ "#!/bin/bash -eu\n".data <+: installScriptBody (jsTrim accessToken) name image
            watchtowerRefreshSeconds metricsUrl sentryApiUrl
        ∧ SCRIPT <:+ installScriptBody (jsTrim accessToken) name image
            watchtowerRefreshSeconds metricsUrl sentryApiUrl) := by
  constructor
  · intro e
    by_cases h : testTokenPattern (jsTrim accessToken)
    · simp [getInstallScript, sanitizeDigitalOceanToken, h]
    · simp only [Bool.not_eq_true] at h
      simp [getInstallScript, sanitizeDigitalOceanToken, h, eq_comm]
  · intro h
    refine ⟨?_, ?_, ?_⟩
    · simp [getInstallScript, sanitizeDigitalOceanToken, h, installScriptBody,
        List.append_assoc]
    · exact List.prefix_append _ _
    · exact suffix_append_left _ (suffix_append_left _ (suffix_append_left _
        (suffix_append_left _ (suffix_append_left _ (suffix_append_left _
          (List.suffix_append _ SCRIPT))))))

/-- Witness for C8: a whitespace-only token is rejected, and a valid token
yields the composed script. -/
theorem getInstallScript_characterization_witness :
    getInstallScript " ".data "n".data none none none none
        = Except.error "Invalid DigitalOcean Token".data
    ∧ getInstallScript "abc".data "n".data none none none none
        = Except.ok (installScriptBody "abc".data "n".data none none none none) :=
  ⟨((getInstallScript_characterization " ".data "n".data none none none none).1
      "Invalid DigitalOcean Token".data).mpr ⟨by decide, rfl⟩,
   ((getInstallScript_characterization "abc".data "n".data none none none none).2 (by decide)).1⟩

/-- Inserting a slug always leaves some location carrying it under the given
regionId. -/
theorem insertRegion_mem_self (rid slug : Str) (locs : List DigitalOceanLocation) :
    ∃ loc ∈ insertRegion rid slug locs, loc.regionId = rid ∧ slug ∈ loc.dataCenterIds := by
  induction locs with
  | nil =>
    exact ⟨{ regionId := rid, dataCenterIds := [slug] }, List.mem_singleton.mpr rfl, rfl,
      List.mem_singleton.mpr rfl⟩
  | cons l ls ih =>
    by_cases hr : l.regionId = rid
    · refine ⟨{ regionId := l.regionId, dataCenterIds := l.dataCenterIds ++ [slug] }, ?_, hr, ?_⟩
      · simp [insertRegion, hr]
      · simp
    · obtain ⟨loc, hmem, hrid, hslug⟩ := ih
      exact ⟨loc, by simp [insertRegion, hr, hmem], hrid, hslug⟩

/-- Inserting a slug keeps every location of the accumulator: its regionId
survives and its data centers are preserved. -/
theorem insertRegion_subset (rid slug : Str) (locs : List DigitalOceanLocation)
    (loc : DigitalOceanLocation) (h : loc ∈ locs) :
    ∃ loc2 ∈ insertRegion rid slug locs, loc2.regionId = loc.regionId ∧
      loc.dataCenterIds ⊆ loc2.dataCenterIds := by
  induction locs with
  | nil => cases h
  | cons l ls ih =>
    by_cases hr : l.regionId = rid
    · rcases List.mem_cons.mp h with h1 | h1
      · refine ⟨{ regionId := l.regionId, dataCenterIds := l.dataCenterIds ++ [slug] }, ?_,
          by rw [h1], ?_⟩
        · simp [insertRegion, hr]
        · rw [h1]
          exact List.subset_append_left _ _
      · refine ⟨loc, ?_, rfl, List.Subset.refl _⟩
        simp [insertRegion, hr, h1]
    · rcases List.mem_cons.mp h with h1 | h1
      · exact ⟨loc, by simp [insertRegion, hr, h1], rfl, List.Subset.refl _⟩
      · obtain ⟨loc2, hmem, hrid, hsub⟩ := ih h1
        exact ⟨loc2, by simp [insertRegion, hr, hmem], hrid, hsub⟩

/-- One listLocations step keeps every location of the accumulator in the
sense of insertRegion_subset. -/
theorem listLocationsStep_subset (acc : List DigitalOceanLocation) (r : RegionInfo)
    (loc : DigitalOceanLocation) (h : loc ∈ acc) :
    ∃ loc2 ∈ listLocationsStep acc r, loc2.regionId = loc.regionId ∧
      loc.dataCenterIds ⊆ loc2.dataCenterIds := by
  by_cases hr : (r.available && r.sizes.contains MACHINE_SIZE) = true
  · unfold listLocationsStep
    rw [if_pos hr]
    exact insertRegion_subset _ _ acc loc h
  · unfold listLocationsStep
    rw [if_neg hr]
    exact ⟨loc, h, rfl, List.Subset.refl _⟩

/-- The whole fold keeps every location of the accumulator. -/
theorem foldl_step_subset : ∀ (regions : List RegionInfo) (acc : List DigitalOceanLocation)
    (loc : DigitalOceanLocation), loc ∈ acc →
    ∃ loc2 ∈ regions.foldl listLocationsStep acc, loc2.regionId = loc.regionId ∧
      loc.dataCenterIds ⊆ loc2.dataCenterIds := by
  intro regions
  induction regions with
  | nil =>
    intro acc loc h
    exact ⟨loc, h, rfl, List.Subset.refl _⟩
  | cons r rs ih =>
    intro acc loc h
    rw [List.foldl_cons]
    obtain ⟨loc2, hmem2, hrid2, hsub2⟩ := listLocationsStep_subset acc r loc h
    obtain ⟨loc3, hmem3, hrid3, hsub3⟩ := ih (listLocationsStep acc r) loc2 hmem2
    exact ⟨loc3, hmem3, hrid3.trans hrid2, hsub2.trans hsub3⟩

/-- Every eligible region of the input ends up, slug under city id, in the
fold result. -/
theorem foldl_step_mem : ∀ (regions : List RegionInfo) (acc : List DigitalOceanLocation)
    (r : RegionInfo), r ∈ regions → r.available = true →
    r.sizes.contains MACHINE_SIZE = true →
    ∃ loc ∈ regions.foldl listLocationsStep acc, loc.regionId = GetCityId r.slug ∧
      r.slug ∈ loc.dataCenterIds := by
  intro regions
  induction regions with
  | nil =>
    intro acc r h
    cases h
  | cons r0 rs ih =>
    intro acc r hmem hav hsz
    rw [List.foldl_cons]
    rcases List.mem_cons.mp hmem with h1 | h1
    · subst h1
      have hcond : (r.available && r.sizes.contains MACHINE_SIZE) = true := by
        rw [hav, hsz]
        rfl
      have hstep : listLocationsStep acc r = insertRegion (GetCityId r.slug) r.slug acc := by
        unfold listLocationsStep
        rw [if_pos hcond]
      obtain ⟨loc, hm, hrid, hslug⟩ := insertRegion_mem_self (GetCityId r.slug) r.slug acc
      rw [← hstep] at hm
      obtain ⟨loc2, hm2, hrid2, hsub2⟩ := foldl_step_subset rs (listLocationsStep acc r) loc hm
      exact ⟨loc2, hm2, hrid2.trans hrid, hsub2 hslug⟩
    · exact ih (listLocationsStep acc r0) r h1 hav hsz

/-- Origin of every data center id after an insertRegion: it was already in
the accumulator under the same regionId, or it is the inserted slug under the
inserted regionId. -/
theorem insertRegion_origin (rid slug : Str) (locs : List DigitalOceanLocation) :
    ∀ loc2 ∈ insertRegion rid slug locs, ∀ dc ∈ loc2.dataCenterIds,
      (∃ loc ∈ locs, loc.regionId = loc2.regionId ∧ dc ∈ loc.dataCenterIds)
      ∨ (dc = slug ∧ loc2.regionId = rid) := by
  induction locs with
  | nil =>
    intro loc2 hmem dc hdc
    simp [insertRegion] at hmem
    subst hmem
    simp at hdc
    exact Or.inr ⟨hdc, rfl⟩
  | cons l ls ih =>
    intro loc2 hmem dc hdc
    by_cases hr : l.regionId = rid
    · rw [show insertRegion rid slug (l :: ls)
          = { regionId := l.regionId, dataCenterIds := l.dataCenterIds ++ [slug] } :: ls by
            simp [insertRegion, hr]] at hmem
      rcases List.mem_cons.mp hmem with h1 | h1
      · have hdc2 : dc ∈ l.dataCenterIds ∨ dc = slug := by simpa [h1] using hdc
        rcases hdc2 with h2 | h2
        · exact Or.inl ⟨l, List.mem_cons_self l ls, by simp [h1], h2⟩
        · exact Or.inr ⟨h2, by simp [h1, hr]⟩
      · exact Or.inl ⟨loc2, List.mem_cons_of_mem l h1, rfl, hdc⟩
    · rw [show insertRegion rid slug (l :: ls) = l :: insertRegion rid slug ls by
          simp [insertRegion, hr]] at hmem
      rcases List.mem_cons.mp hmem with h1 | h1
      · refine Or.inl ⟨l, List.mem_cons_self l ls, by rw [h1], ?_⟩
        rw [h1] at hdc
        exact hdc
      · rcases ih loc2 h1 dc hdc with h2 | h2
        · obtain ⟨loc, hl, ha, hb⟩ := h2
          exact Or.inl ⟨loc, List.mem_cons_of_mem l hl, ha, hb⟩
        · exact Or.inr h2

/-- Origin of every data center id after one listLocations step. -/
theorem listLocationsStep_origin (acc : List DigitalOceanLocation) (r : RegionInfo) :
    ∀ loc2 ∈ listLocationsStep acc r, ∀ dc ∈ loc2.dataCenterIds,
      (∃ loc ∈ acc, loc.regionId = loc2.regionId ∧ dc ∈ loc.dataCenterIds)
      ∨ ((r.available && r.sizes.contains MACHINE_SIZE) = true ∧ dc = r.slug ∧
          loc2.regionId = GetCityId r.slug) := by
  intro loc2 hmem dc hdc
  by_cases hr : (r.available && r.sizes.contains MACHINE_SIZE) = true
  · unfold listLocationsStep at hmem
    rw [if_pos hr] at hmem
    rcases insertRegion_origin (GetCityId r.slug) r.slug acc loc2 hmem dc hdc with h | h
    · exact Or.inl h
    · exact Or.inr ⟨hr, h.1, h.2⟩
  · unfold listLocationsStep at hmem
    rw [if_neg hr] at hmem
    exact Or.inl ⟨loc2, hmem, rfl, hdc⟩

/-- Origin of every data center id in the fold result. -/
theorem foldl_step_origin : ∀ (regions : List RegionInfo) (acc : List DigitalOceanLocation),
    ∀ loc2 ∈ regions.foldl listLocationsStep acc, ∀ dc ∈ loc2.dataCenterIds,
      (∃ loc ∈ acc, loc.regionId = loc2.regionId ∧ dc ∈ loc.dataCenterIds)
      ∨ (∃ r ∈ regions, (r.available && r.sizes.contains MACHINE_SIZE) = true ∧ dc = r.slug ∧
          loc2.regionId = GetCityId r.slug) := by
  intro regions
  induction regions with
  | nil =>
    intro acc loc2 hmem dc hdc
    exact Or.inl ⟨loc2, hmem, rfl, hdc⟩
  | cons r rs ih =>
    intro acc loc2 hmem dc hdc
    rw [List.foldl_cons] at hmem
    rcases ih (listLocationsStep acc r) loc2 hmem dc hdc with h | h
    · obtain ⟨loc, hl, ha, hb⟩ := h
      rcases listLocationsStep_origin acc r loc hl dc hb with h2 | h2
      · obtain ⟨loc0, h0, ha0, hb0⟩ := h2
        exact Or.inl ⟨loc0, h0, ha0.trans ha, hb0⟩
      · exact Or.inr ⟨r, List.mem_cons_self r rs, h2.1, h2.2.1, ha.symm.trans h2.2.2⟩
    · obtain ⟨r2, hr2, helig, hdc2, hrid2⟩ := h
      exact Or.inr ⟨r2, List.mem_cons_of_mem r hr2, helig, hdc2, hrid2⟩

/-- C9 counterexample: listLocations is not a pass-through of the region
list — an unavailable region is dropped even though it offers the machine
size, and two available regions of the same city are regrouped into a single
location. -/
theorem listLocations_filters_and_groups :
    listLocations [RegionInfo.mk "ams3".data false [MACHINE_SIZE]] = []
    ∧ listLocations [RegionInfo.mk "nyc1".data true [MACHINE_SIZE],
        RegionInfo.mk "nyc3".data true [MACHINE_SIZE]]
        = [DigitalOceanLocation.mk "nyc".data ["nyc1".data, "nyc3".data]] := by
  refine ⟨rfl, by decide⟩

/-- C9 (amended): listLocations returns exactly the regions that are
available and offer the s-1vcpu-1gb size, grouped by city id — every such
region appears with its slug as a data center id of a location carrying its
city id, and every data center id of the result is the slug of such a region
under its city id. -/
theorem listLocations_eligible_regions_grouped (regionInfos : List RegionInfo) :
    (∀ r ∈ regionInfos, r.available = true → r.sizes.contains MACHINE_SIZE = true →
        ((listLocations regionInfos).any
          (fun loc => loc.regionId == GetCityId r.slug &&
            loc.dataCenterIds.contains r.slug)) = true)
    ∧ (∀ loc ∈ listLocations regionInfos, ∀ dc ∈ loc.dataCenterIds,
        ∃ r ∈ regionInfos, r.available = true ∧ r.sizes.contains MACHINE_SIZE = true ∧
          r.slug = dc ∧ GetCityId r.slug = loc.regionId) := by
  constructor
  · intro r hmem hav hsz
    unfold listLocations
    obtain ⟨loc, hm, hrid, hslug⟩ := foldl_step_mem regionInfos [] r hmem hav hsz
    rw [List.any_eq_true]
    refine ⟨loc, hm, ?_⟩
    rw [Bool.and_eq_true, beq_iff_eq]
    exact ⟨hrid, List.elem_eq_true_of_mem hslug⟩
  · intro loc hmem dc hdc
    unfold listLocations at hmem
    rcases foldl_step_origin regionInfos [] loc hmem dc hdc with h | h
    · obtain ⟨loc0, h0, _, _⟩ := h
      exact absurd h0 (List.not_mem_nil _)
    · obtain ⟨r, hr, helig, hdc2, hrid2⟩ := h
      have hsplit : r.available = true ∧ r.sizes.contains MACHINE_SIZE = true := by
        simpa using helig
      rcases hsplit with ⟨hav, hsz⟩
      exact ⟨r, hr, hav, hsz, hdc2.symm, hrid2.symm⟩

/-- Witness for C9: a single eligible region appears in the result under its
city id. -/
theorem listLocations_eligible_regions_grouped_witness :
    ((listLocations [RegionInfo.mk "nyc1".data true [MACHINE_SIZE]]).any
      (fun loc => loc.regionId == GetCityId "nyc1".data &&
        loc.dataCenterIds.contains "nyc1".data)) = true :=
  (listLocations_eligible_regions_grouped [RegionInfo.mk "nyc1".data true [MACHINE_SIZE]]).1
    (RegionInfo.mk "nyc1".data true [MACHINE_SIZE]) (List.mem_singleton.mpr rfl) rfl (by decide)
